import Mathlib

/-!
# Verification of the blobular storage engine

A shallow embedding of the blobular content-addressed object store
(`src/main.rs`).  Conventions of the embedding:

* Bytes are `Nat` values (the meaningful range is `0 ≤ b < 256`); byte
  buffers are `List Nat`.
* Hashes and user-supplied hash arguments are lists of characters
  (`List Char`); the real program renders a SHA-1 digest as 40 lowercase
  hexadecimal characters.
* The on-disk object store is modelled as an association list from the
  full 40-character hash to the stored payload.  The real store writes
  each payload through a zlib compressor and reads it back through the
  matching decompressor; because decompression inverts compression, the
  store is modelled as holding the raw payload.  A shard directory
  `objects/xy/` exists exactly when some stored hash starts with `xy`
  (directories are only ever created by `store_blob` immediately before
  it writes a file into them).
* The SHA-1 digest comes from the external `sha1` crate.  Modelled from
  the spec: `digest(bytes) → Hash` is a pure deterministic function; it
  is taken as an explicit parameter `d`, and facts that the real digest
  guarantees (a 40-character output) appear as hypotheses.
* Fatal `exit(128)` conditions are modelled as `Except.error` values;
  an `unwrap()` panic (process abort, not a fatal diagnostic) is the
  distinguished error `CatErr.unwrapPanic`.
-/

namespace Blobular

abbrev Byte := Nat

abbrev Hash := List Char

/-- The object store: full hash of each stored object paired with its
(uncompressed) payload.  `store_blob` never stores a duplicate key. -/
abbrev Repo := List (Hash × List Byte)

/-- Look an object up by its full hash (the file
`objects/<hash[..2]>/<hash[2..]>`). -/
def lookupBlob : Repo → Hash → Option (List Byte)
  | [], _ => none
  | (k, v) :: r, h => if k = h then some v else lookupBlob r h

/-- `store_blob` from the source: if the object already exists at the
sharded path, return immediately without writing; otherwise create the
shard directory if needed and write the compressed payload. -/
def store_blob (repo : Repo) (blob : List Byte) (blob_hash : Hash) : Repo :=
  match lookupBlob repo blob_hash with
  | some _ => repo
  | none => (blob_hash, blob) :: repo

/-! ## Chunker

`chunk_file` in the source delegates to `fastcdc::v2020::FastCDC::new(buf,
2048, 4096, 65535)`, an external crate.  Modelled from the spec (§4.1):
content-defined chunking declares a boundary at the first position at or
past `minSize` where the rolling hash satisfies a target-average-derived
condition, or forcibly at `maxSize`; a remaining tail of at most
`minSize` bytes becomes one final chunk.  For a fixed input buffer the
rolling-hash test is a deterministic function of the chunk start offset
and the candidate chunk length; it is abstracted as the boolean
parameter `isB`. -/

/-- One chunk: a contiguous slice of the source buffer.  (The crate also
records the rolling-hash value of the chunk; nothing reads it.) -/
structure Chunk where
  offset : Nat
  length : Nat
deriving DecidableEq

def minSize : Nat := 2048

def avgSize : Nat := 4096

def maxSize : Nat := 65535

/-- Length of the next chunk starting at `pos` with `n` bytes remaining:
the whole tail if it is at most `minSize` bytes, otherwise the first
boundary in `[minSize, min n maxSize)`, or forcibly `min n maxSize`. -/
def cutPoint (isB : Nat → Nat → Bool) (pos n : Nat) : Nat :=
  if n ≤ minSize then n
  else
    match (List.range (min n maxSize - minSize)).find? (fun i => isB pos (minSize + i)) with
    | some i => minSize + i
    | none => min n maxSize

/-- The chunking loop.  `fuel` only makes the recursion structural and
never runs out in use: every iteration except the one that consumes the
final tail cuts at least `minSize` bytes, so `n / minSize + 1`
iterations always reach the end of the buffer (the invariant carried by
the lemmas below is `n ≤ fuel * minSize`). -/
def chunkLoop (isB : Nat → Nat → Bool) : Nat → Nat → Nat → List Chunk
  | 0, _, _ => []
  | fuel + 1, pos, n =>
    if n = 0 then []
    else
      let l := cutPoint isB pos n
      ⟨pos, l⟩ :: chunkLoop isB fuel (pos + l) (n - l)

/-- Split a file into content-defined chunks. -/
def chunk_file (isB : Nat → Nat → Bool) (buf : List Byte) : List Chunk :=
  chunkLoop isB (buf.length / minSize + 1) 0 buf.length

/-- The bytes of a chunk: `&file_bytes[chunk.offset..chunk.offset + chunk.length]`. -/
def chunkBytes (B : List Byte) (c : Chunk) : List Byte :=
  (B.drop c.offset).take c.length

/-- States the partition shape of a chunk list: starting at `pos`, every
chunk begins exactly where the previous one ended and is non-empty. -/
def adjacentFrom : Nat → List Chunk → Bool
  | _, [] => true
  | pos, c :: cs =>
    (c.offset == pos) && (c.length != 0) && adjacentFrom (c.offset + c.length) cs

/-! ## Manifest encoding and the add operation -/

/-- The literal line marker `"blob "`. -/
def blobMark : List Char := ['b', 'l', 'o', 'b', ' ']

/-- UTF-8 bytes of a string of ASCII characters (hashes are lowercase
hex, so one byte per character). -/
def strBytes (s : List Char) : List Byte := s.map Char.toNat

/-- The parent blob: the concatenation of `"blob " ++ hash ++ "\n"` for
each chunk hash in order. -/
def manifestEncode (hs : List Hash) : List Byte :=
  (hs.map (fun h => strBytes blobMark ++ strBytes h ++ [10])).flatten

/-- SHA-1 of the bytes of one chunk. -/
def chunkHash (d : List Byte → Hash) (B : List Byte) (c : Chunk) : Hash :=
  d (chunkBytes B c)

/-- The ordered chunk-hash list that `add` accumulates. -/
def chunkHashes (d : List Byte → Hash) (isB : Nat → Nat → Bool) (B : List Byte) : List Hash :=
  (chunk_file isB B).map (chunkHash d B)

/-- The store after the chunk-storing loop of `add`: each chunk stored
under its own hash, in order. -/
def chunkStores (d : List Byte → Hash) (isB : Nat → Nat → Bool) (B : List Byte)
    (repo : Repo) : Repo :=
  (chunk_file isB B).foldl (fun r c => store_blob r (chunkBytes B c) (chunkHash d B c)) repo

/-- The store after the whole of `add`: chunks first, then the parent
blob stored under the hash of the whole file. -/
def addRepo (d : List Byte → Hash) (isB : Nat → Nat → Bool) (B : List Byte)
    (repo : Repo) : Repo :=
  store_blob (chunkStores d isB B repo) (manifestEncode (chunkHashes d isB B)) (d B)

/-- `add_file_to_blobular_repo`, from the point where the file content is
in memory (repository discovery and the pathspec check precede and are
not modelled): reject an empty file, store every chunk under its SHA-1,
store the parent blob under the SHA-1 of the whole file, and return that
whole-file hash (the hash the command prints). -/
def add_file_to_blobular_repo (d : List Byte → Hash) (isB : Nat → Nat → Bool)
    (fileBytes : List Byte) (repo : Repo) : Option (Hash × Repo) :=
  if fileBytes.length = 0 then none
  else some (d fileBytes, addRepo d isB fileBytes repo)

/-! ## Hash resolution and the cat operations -/

/-- Every way a cat operation can terminate without output.  `exit(128)`
fatal diagnostics are the first four; `unwrapPanic` is an `unwrap()`
panic (a process abort that is not a `fatal:` diagnostic and does not
exit with status 128). -/
inductive CatErr where
  /-- fatal: ambiguous argument (minimum length of a hash is 4 characters) -/
  | hashTooShort
  /-- fatal: not a blobular repository -/
  | notARepository
  /-- fatal: object not found (carries the argument or hash printed) -/
  | objectNotFound (h : Hash)
  /-- fatal: ambiguous argument (carries the object names listed in the
  note lines, exactly as printed: the matching file names) -/
  | ambiguousHash (candidates : List Hash)
  /-- fatal: invalid blob (carries the offending trimmed line) -/
  | malformedManifest (line : Hash)
  /-- a panic via unwrap, e.g. read_dir on an absent shard directory or
  String::from_utf8 on non-UTF-8 payload bytes -/
  | unwrapPanic
deriving DecidableEq

/-- The file names found in shard directory `objects/<dd>`: every stored
hash starting with the two characters `dd`, minus those two characters. -/
def dirListing (repo : Repo) (dd : Hash) : List Hash :=
  ((repo.map Prod.fst).filter (fun k => k.take 2 = dd)).map (fun k => k.drop 2)

/-- The file names in the shard directory for `p` that start with the
remaining characters `p[2..]` — the matching objects of the scan. -/
def matchingObjects (repo : Repo) (p : Hash) : List Hash :=
  (dirListing repo (p.take 2)).filter (fun f => (p.drop 2).isPrefixOf f)

/-- `full_hash_from_prefix`: a 40-character argument is returned as-is
(no existence check); an argument shorter than 4 characters is fatal;
otherwise scan the shard directory.  `read_dir` on an absent shard
directory is unwrapped, so that case panics instead of producing a
fatal diagnostic. -/
def full_hash_from_prefix (p : Hash) (repo : Repo) : Except CatErr Hash :=
  if p.length = 40 then .ok p
  else if p.length < 4 then .error .hashTooShort
  else if dirListing repo (p.take 2) = [] then .error .unwrapPanic
  else
    match matchingObjects repo p with
    | [] => .error (.objectNotFound p)
    | [f] => .ok (p.take 2 ++ f)
    | fs => .error (.ambiguousHash fs)

/-- `cat_blob_from_blobular_repo`.  The length check comes first, before
repository discovery (`orepo = none` models: no repository found); the
resolved object is then looked up and its decompressed payload written
to the output sink (the returned byte list). -/
def cat_blob_from_blobular_repo (orepo : Option Repo) (hash : Hash) :
    Except CatErr (List Byte) :=
  if hash.length < 4 then .error .hashTooShort
  else
    match orepo with
    | none => .error .notARepository
    | some repo =>
      match full_hash_from_prefix hash repo with
      | .error e => .error e
      | .ok full =>
        match lookupBlob repo full with
        | none => .error (.objectNotFound full)
        | some payload => .ok payload

/-! ## UTF-8 decoding, trimming, line splitting (Rust std behaviour) -/

/-- Decode UTF-8 bytes into characters, or fail exactly when
`String::from_utf8` would (continuation-range, overlong, surrogate and
out-of-range checks per RFC 3629). -/
def utf8Decode : List Byte → Option (List Char)
  | [] => some []
  | b :: bs =>
    if b < 0x80 then (utf8Decode bs).map (fun cs => Char.ofNat b :: cs)
    else if b < 0xC2 then none
    else if b < 0xE0 then
      match bs with
      | b2 :: bs2 =>
        if 0x80 ≤ b2 ∧ b2 < 0xC0 then
          (utf8Decode bs2).map (fun cs => Char.ofNat ((b - 0xC0) * 0x40 + (b2 - 0x80)) :: cs)
        else none
      | [] => none
    else if b < 0xF0 then
      match bs with
      | b2 :: b3 :: bs3 =>
        if (0x80 ≤ b2 ∧ b2 < 0xC0) ∧ (0x80 ≤ b3 ∧ b3 < 0xC0) ∧
            (b = 0xE0 → 0xA0 ≤ b2) ∧ (b = 0xED → b2 < 0xA0) then
          (utf8Decode bs3).map (fun cs =>
            Char.ofNat ((b - 0xE0) * 0x1000 + (b2 - 0x80) * 0x40 + (b3 - 0x80)) :: cs)
        else none
      | _ => none
    else if b < 0xF5 then
      match bs with
      | b2 :: b3 :: b4 :: bs4 =>
        if (0x80 ≤ b2 ∧ b2 < 0xC0) ∧ (0x80 ≤ b3 ∧ b3 < 0xC0) ∧ (0x80 ≤ b4 ∧ b4 < 0xC0) ∧
            (b = 0xF0 → 0x90 ≤ b2) ∧ (b = 0xF4 → b2 < 0x90) then
          (utf8Decode bs4).map (fun cs =>
            Char.ofNat ((b - 0xF0) * 0x40000 + (b2 - 0x80) * 0x1000 +
              (b3 - 0x80) * 0x40 + (b4 - 0x80)) :: cs)
        else none
      | _ => none
    else none

/-- Unicode White_Space, the set trimmed by Rust str::trim. -/
def isWsChar (c : Char) : Bool :=
  let n := c.toNat
  (0x09 ≤ n && n ≤ 0x0D) || n == 0x20 || n == 0x85 || n == 0xA0 || n == 0x1680 ||
    (0x2000 ≤ n && n ≤ 0x200A) || n == 0x2028 || n == 0x2029 || n == 0x202F ||
    n == 0x205F || n == 0x3000

/-- str::trim: drop whitespace from both ends. -/
def trimWs (l : List Char) : List Char :=
  ((l.dropWhile isWsChar).reverse.dropWhile isWsChar).reverse

/-- str::split on a single newline.  Like Rust split, the result is
never empty: the empty string splits into one empty piece. -/
def splitNl : List Char → List (List Char)
  | [] => [[]]
  | c :: rest =>
    if c = '\n' then [] :: splitNl rest
    else
      match splitNl rest with
      | [] => [[c]]
      | h :: t => (c :: h) :: t

/-- The manifest-validation map of cat-file: trim each line, require the
literal marker `"blob "`, and take the rest of the line as a chunk hash;
the first offending line is fatal.  All lines are validated before any
chunk is printed, exactly as in the source (the map with the fatal exit
inside runs to completion before the printing loop starts). -/
def decodeLines : List (List Char) → Except CatErr (List Hash)
  | [] => .ok []
  | x :: xs =>
    let t := trimWs x
    if blobMark.isPrefixOf t then
      match decodeLines xs with
      | .error e => .error e
      | .ok hs => .ok (t.drop 5 :: hs)
    else .error (.malformedManifest t)

/-- Decode a parent blob: trim the whole payload, split on newlines,
validate and extract every line. -/
def decode_manifest (payload : List Char) : Except CatErr (List Hash) :=
  decodeLines (splitNl (trimWs payload))

/-- The printing loop of cat-file: each chunk hash goes through the full
cat-blob path (resolution included) and the payloads are concatenated on
the output sink.  On error the real program has already streamed the
earlier chunks; the model keeps only the error. -/
def catChunks (orepo : Option Repo) : List Hash → List Byte → Except CatErr (List Byte)
  | [], acc => .ok acc
  | h :: t, acc =>
    match cat_blob_from_blobular_repo orepo h with
    | .error e => .error e
    | .ok bytes => catChunks orepo t (acc ++ bytes)

/-- `cat_file_from_blobular_repo`: resolve, fetch, decompress, decode
the payload as UTF-8 text (unwrap panics on non-UTF-8), parse it as a
manifest, then print every referenced chunk in order. -/
def cat_file_from_blobular_repo (orepo : Option Repo) (hash : Hash) :
    Except CatErr (List Byte) :=
  match orepo with
  | none => .error .notARepository
  | some repo =>
    match full_hash_from_prefix hash repo with
    | .error e => .error e
    | .ok full =>
      match lookupBlob repo full with
      | none => .error (.objectNotFound full)
      | some payload =>
        match utf8Decode payload with
        | none => .error .unwrapPanic
        | some chars =>
          match decode_manifest chars with
          | .error e => .error e
          | .ok hs => catChunks orepo hs []

/-! ## A concrete digest for witnesses

Witness theorems need an executable digest with the shape the real SHA-1
guarantees: 40 lowercase hex characters.  `dLen` hex-encodes the length
of the buffer; distinct lengths give distinct hashes, which is all the
witnesses need. -/

/-- The lowercase hex digit for `n % 16`. -/
def hexChar (n : Nat) : Char :=
  if n < 10 then Char.ofNat (48 + n) else Char.ofNat (87 + n)

/-- `n` as 40 lowercase hex characters, most significant nibble first. -/
def toHex40 (n : Nat) : List Char :=
  (List.range 40).map (fun i => hexChar (n / 16 ^ (39 - i) % 16))

/-- A stand-in digest for witnesses: the hex-encoded buffer length. -/
def dLen (b : List Byte) : Hash := toHex40 b.length

instance {ε α : Type} [DecidableEq ε] [DecidableEq α] : DecidableEq (Except ε α) := fun a b =>
  match a, b with
  | .error x, .error y =>
    if h : x = y then isTrue (by rw [h]) else isFalse (by simp [h])
  | .error _, .ok _ => isFalse (by simp)
  | .ok _, .error _ => isFalse (by simp)
  | .ok x, .ok y =>
    if h : x = y then isTrue (by rw [h]) else isFalse (by simp [h])

/-- Whether a cat result is the fatal malformed-manifest diagnostic
(used to state that some failures are NOT that diagnostic). -/
def isMalformedResult : Except CatErr (List Byte) → Bool
  | .error (.malformedManifest _) => true
  | _ => false

/-! ## Chunker lemmas -/

theorem minSize_pos : 0 < minSize := by decide

theorem cutPoint_of_small (isB : Nat → Nat → Bool) (pos n : Nat) (h : n ≤ minSize) :
    cutPoint isB pos n = n := by
  simp [cutPoint, h]

theorem cutPoint_le (isB : Nat → Nat → Bool) (pos n : Nat) : cutPoint isB pos n ≤ n := by
  unfold cutPoint
  have hmin : min n maxSize ≤ n := Nat.min_le_left n maxSize
  split
  · exact Nat.le_refl n
  · split
    · rename_i hn i hf
      have hmem := List.mem_range.mp (List.mem_of_find?_eq_some hf)
      omega
    · exact hmin

theorem cutPoint_pos (isB : Nat → Nat → Bool) (pos n : Nat) (h : 0 < n) :
    0 < cutPoint isB pos n := by
  unfold cutPoint
  have hms : minSize = 2048 := rfl
  have hmx : maxSize = 65535 := rfl
  split
  · exact h
  · split
    · rename_i hn i hf
      omega
    · rename_i hn _
      have : min n maxSize = if n ≤ maxSize then n else maxSize := Nat.min_def
      split at this <;> omega

theorem cutPoint_mid (isB : Nat → Nat → Bool) (pos n : Nat) (h : minSize < n) :
    minSize ≤ cutPoint isB pos n ∧ cutPoint isB pos n ≤ maxSize := by
  unfold cutPoint
  have hms : minSize = 2048 := rfl
  have hmx : maxSize = 65535 := rfl
  have hmindef : min n maxSize = if n ≤ maxSize then n else maxSize := Nat.min_def
  rw [if_neg (by omega)]
  split
  · rename_i i hf
    have hmem := List.mem_range.mp (List.mem_of_find?_eq_some hf)
    split at hmindef <;> omega
  · split at hmindef <;> omega

theorem chunkLoop_of_zero (isB : Nat → Nat → Bool) (fuel pos : Nat) :
    chunkLoop isB fuel pos 0 = [] := by
  cases fuel <;> simp [chunkLoop]

/-- Concatenating the chunk byte ranges, in order, reproduces the
remainder of the buffer. -/
theorem chunkLoop_join (isB : Nat → Nat → Bool) (B : List Byte) :
    ∀ (fuel pos n : Nat), n ≤ fuel * minSize → pos + n = B.length →
      ((chunkLoop isB fuel pos n).map (chunkBytes B)).flatten = B.drop pos := by
  intro fuel
  induction fuel with
  | zero =>
    intro pos n hfuel hpos
    have hn : n = 0 := by omega
    subst hn
    simp at hpos
    simp [chunkLoop, List.drop_eq_nil_of_le (Nat.le_of_eq hpos.symm)]
  | succ f ih =>
    intro pos n hfuel hpos
    by_cases h0 : n = 0
    · subst h0
      simp at hpos
      simp [chunkLoop, List.drop_eq_nil_of_le (Nat.le_of_eq hpos.symm)]
    · have hl0 : 0 < cutPoint isB pos n := cutPoint_pos isB pos n (Nat.pos_of_ne_zero h0)
      have hln : cutPoint isB pos n ≤ n := cutPoint_le isB pos n
      have hrest : n - cutPoint isB pos n ≤ f * minSize := by
        by_cases hsmall : n ≤ minSize
        · rw [cutPoint_of_small isB pos n hsmall]
          simp
        · have hmid := (cutPoint_mid isB pos n (by omega)).1
          have hmul : (f + 1) * minSize = f * minSize + minSize := Nat.succ_mul f minSize
          omega
      simp only [chunkLoop, if_neg h0, List.map_cons, List.flatten_cons]
      rw [ih (pos + cutPoint isB pos n) (n - cutPoint isB pos n) hrest (by omega)]
      show (B.drop pos).take (cutPoint isB pos n) ++ B.drop (pos + cutPoint isB pos n) =
        B.drop pos
      have hdd : B.drop (pos + cutPoint isB pos n) = (B.drop pos).drop (cutPoint isB pos n) :=
        (List.drop_drop (cutPoint isB pos n) pos B).symm
      rw [hdd]
      exact List.take_append_drop (cutPoint isB pos n) (B.drop pos)

/-- Chunks are adjacent, in increasing order of offset, starting at the
given position, and non-empty. -/
theorem chunkLoop_adjacent (isB : Nat → Nat → Bool) :
    ∀ (fuel pos n : Nat), adjacentFrom pos (chunkLoop isB fuel pos n) = true := by
  intro fuel
  induction fuel with
  | zero => intro pos n; simp [chunkLoop, adjacentFrom]
  | succ f ih =>
    intro pos n
    by_cases h0 : n = 0
    · subst h0; simp [chunkLoop, adjacentFrom]
    · have hl0 : 0 < cutPoint isB pos n := cutPoint_pos isB pos n (Nat.pos_of_ne_zero h0)
      simp only [chunkLoop, if_neg h0, adjacentFrom, Bool.and_eq_true, beq_iff_eq,
        bne_iff_ne]
      exact ⟨⟨trivial, by omega⟩, ih (pos + cutPoint isB pos n) (n - cutPoint isB pos n)⟩

/-- Every chunk except possibly the last has length between `minSize`
and `maxSize`. -/
theorem chunkLoop_bounds (isB : Nat → Nat → Bool) :
    ∀ (fuel pos n : Nat), ∀ c ∈ (chunkLoop isB fuel pos n).dropLast,
      minSize ≤ c.length ∧ c.length ≤ maxSize := by
  intro fuel
  induction fuel with
  | zero => intro pos n c hc; simp [chunkLoop] at hc
  | succ f ih =>
    intro pos n c hc
    by_cases h0 : n = 0
    · subst h0; simp [chunkLoop] at hc
    · simp only [chunkLoop, if_neg h0] at hc
      by_cases hrest : chunkLoop isB f (pos + cutPoint isB pos n) (n - cutPoint isB pos n) = []
      · rw [hrest] at hc
        simp at hc
      · rw [List.dropLast_cons_of_ne_nil hrest] at hc
        rcases List.mem_cons.mp hc with hhead | htail
        · subst hhead
          have hlt : cutPoint isB pos n < n := by
            by_contra hge
            have : cutPoint isB pos n = n := by
              have := cutPoint_le isB pos n
              omega
            rw [this] at hrest
            simp [chunkLoop_of_zero] at hrest
          have hmid : minSize < n := by
            by_contra hsm
            have := cutPoint_of_small isB pos n (by omega)
            omega
          exact cutPoint_mid isB pos n hmid
        · exact ih (pos + cutPoint isB pos n) (n - cutPoint isB pos n) c htail

/-- Fuel adequacy: the fuel chosen by `chunk_file` satisfies the loop
invariant. -/
theorem chunk_file_fuel (n : Nat) : n ≤ (n / minSize + 1) * minSize := by
  have hdm := Nat.div_add_mod n minSize
  have hlt : n % minSize < minSize := Nat.mod_lt n minSize_pos
  have hmul : (n / minSize + 1) * minSize = n / minSize * minSize + minSize :=
    Nat.succ_mul (n / minSize) minSize
  have hcomm : minSize * (n / minSize) = n / minSize * minSize := Nat.mul_comm _ _
  omega

/-- A non-empty buffer of at most `minSize` bytes is a single chunk. -/
theorem chunk_file_small (isB : Nat → Nat → Bool) (B : List Byte) (h0 : B ≠ [])
    (h : B.length ≤ minSize) : chunk_file isB B = [⟨0, B.length⟩] := by
  have hlen : B.length ≠ 0 := by
    intro hz
    exact h0 (List.eq_nil_of_length_eq_zero hz)
  unfold chunk_file
  have hfuel : ∃ f, B.length / minSize + 1 = f + 1 := ⟨B.length / minSize, rfl⟩
  obtain ⟨f, hf⟩ := hfuel
  rw [hf]
  simp only [chunkLoop, if_neg hlen, cutPoint_of_small isB 0 B.length h]
  simp [chunkLoop_of_zero]

/-! ## Object-store lemmas -/

theorem store_blob_of_found (r : Repo) (b : List Byte) (h : Hash)
    (hf : (lookupBlob r h).isSome) : store_blob r b h = r := by
  unfold store_blob
  cases hl : lookupBlob r h with
  | some v => rfl
  | none => rw [hl] at hf; simp at hf

theorem store_blob_of_fresh (r : Repo) (b : List Byte) (h : Hash)
    (hf : lookupBlob r h = none) : store_blob r b h = (h, b) :: r := by
  unfold store_blob
  rw [hf]

theorem lookupBlob_store_self (r : Repo) (b : List Byte) (h : Hash) :
    (lookupBlob (store_blob r b h) h).isSome := by
  unfold store_blob
  cases hl : lookupBlob r h with
  | some v => simp [hl]
  | none => simp [lookupBlob]

theorem lookupBlob_store_mono (r : Repo) (b : List Byte) (h k : Hash)
    (hk : (lookupBlob r k).isSome) : (lookupBlob (store_blob r b h) k).isSome := by
  unfold store_blob
  cases hl : lookupBlob r h with
  | some v => exact hk
  | none =>
    simp only [lookupBlob]
    split
    · simp
    · exact hk

theorem lookupBlob_store_of_some (r : Repo) (b : List Byte) (h k : Hash) (v : List Byte)
    (hk : lookupBlob r k = some v) : lookupBlob (store_blob r b h) k = some v := by
  unfold store_blob
  cases hl : lookupBlob r h with
  | some w => exact hk
  | none =>
    simp only [lookupBlob]
    split
    · rename_i heq
      rw [heq] at hl
      rw [hl] at hk
      exact absurd hk (by simp)
    · exact hk

theorem lookupBlob_store_other (r : Repo) (b : List Byte) (h k : Hash) (hne : k ≠ h) :
    lookupBlob (store_blob r b h) k = lookupBlob r k := by
  unfold store_blob
  cases hl : lookupBlob r h with
  | some w => rfl
  | none =>
    simp only [lookupBlob]
    rw [if_neg (fun heq => hne heq.symm)]

/-- The chunk-storing loop of `add` only grows the store: present keys
stay present. -/
theorem chunkStores_mono (d : List Byte → Hash) (B : List Byte) :
    ∀ (cs : List Chunk) (r : Repo) (k : Hash), (lookupBlob r k).isSome →
      (lookupBlob (cs.foldl (fun r c => store_blob r (chunkBytes B c) (chunkHash d B c)) r)
        k).isSome := by
  intro cs
  induction cs with
  | nil => intro r k hk; exact hk
  | cons c cs ih =>
    intro r k hk
    exact ih _ k (lookupBlob_store_mono r _ _ k hk)

/-- After the chunk-storing loop every chunk hash is present. -/
theorem chunkStores_mem (d : List Byte → Hash) (B : List Byte) :
    ∀ (cs : List Chunk) (r : Repo) (c : Chunk), c ∈ cs →
      (lookupBlob (cs.foldl (fun r c => store_blob r (chunkBytes B c) (chunkHash d B c)) r)
        (chunkHash d B c)).isSome := by
  intro cs
  induction cs with
  | nil => intro r c hc; simp at hc
  | cons c0 cs ih =>
    intro r c hc
    rcases List.mem_cons.mp hc with hh | ht
    · subst hh
      exact chunkStores_mono d B cs _ _ (lookupBlob_store_self r _ _)
    · exact ih _ c ht

/-- If every chunk hash is already present the loop is a no-op. -/
theorem chunkStores_noop (d : List Byte → Hash) (B : List Byte) :
    ∀ (cs : List Chunk) (r : Repo),
      (∀ c ∈ cs, (lookupBlob r (chunkHash d B c)).isSome) →
      cs.foldl (fun r c => store_blob r (chunkBytes B c) (chunkHash d B c)) r = r := by
  intro cs
  induction cs with
  | nil => intro r _; rfl
  | cons c0 cs ih =>
    intro r hall
    have h0 : store_blob r (chunkBytes B c0) (chunkHash d B c0) = r :=
      store_blob_of_found r _ _ (hall c0 (List.mem_cons_self c0 cs))
    simp only [List.foldl_cons, h0]
    exact ih r (fun c hc => hall c (List.mem_cons_of_mem c0 hc))

/-! ## Resolver and manifest-decoding lemmas -/

theorem dirListing_ne_nil_of_matching (r : Repo) (p : Hash)
    (h : matchingObjects r p ≠ []) : dirListing r (p.take 2) ≠ [] := by
  intro hd
  apply h
  unfold matchingObjects
  rw [hd]
  rfl

/-- The matching file names are exactly the stored hashes that extend
the argument, with their two shard characters removed. -/
theorem matchingObjects_eq (r : Repo) (p : Hash) :
    matchingObjects r p =
      ((r.map Prod.fst).filter
        (fun k => (p.drop 2).isPrefixOf (k.drop 2) && decide (k.take 2 = p.take 2))).map
        (fun k => k.drop 2) := by
  unfold matchingObjects dirListing
  rw [List.filter_map, List.filter_filter]
  rfl

/-- Validation stops at the first line, in order, that does not carry
the `"blob "` marker, and reports that trimmed line. -/
theorem decodeLines_error (ls : List (List Char)) :
    ∀ l, (ls.map trimWs).find? (fun x => ! blobMark.isPrefixOf x) = some l →
      decodeLines ls = .error (.malformedManifest l) := by
  induction ls with
  | nil => intro l hl; simp at hl
  | cons x xs ih =>
    intro l hl
    by_cases hx : blobMark.isPrefixOf (trimWs x)
    · have hneg : (!blobMark.isPrefixOf (trimWs x)) = false := by simp [hx]
      simp only [List.map_cons, List.find?_cons, hneg] at hl
      simp only [decodeLines, if_pos hx]
      rw [ih l hl]
    · have hpos : (!blobMark.isPrefixOf (trimWs x)) = true := by simp [hx]
      simp only [List.map_cons, List.find?_cons, hpos] at hl
      simp only [decodeLines, if_neg hx]
      rw [Option.some.inj hl]

/-! ## Claim theorems -/

/-- Claim C5: a 40-character argument is returned unchanged by the
resolver for every store whatsoever (in particular an empty one), so no
existence check happens at that step; and an argument of length 4 to 39
whose shard directory holds exactly one file name starting with the
remaining characters resolves to the 2-character shard name concatenated
with that file name. -/
theorem c5_unique_match_resolution (p : Hash) (r : Repo) :
    (p.length = 40 → full_hash_from_prefix p r = .ok p) ∧
    (∀ f : Hash, 4 ≤ p.length → p.length ≠ 40 → matchingObjects r p = [f] →
      full_hash_from_prefix p r = .ok (p.take 2 ++ f)) := by
  constructor
  · intro h40
    unfold full_hash_from_prefix
    rw [if_pos h40]
  · intro f h4 h40 hm
    have hd : dirListing r (p.take 2) ≠ [] :=
      dirListing_ne_nil_of_matching r p (by rw [hm]; simp)
    unfold full_hash_from_prefix
    rw [if_neg h40, if_neg (by omega), if_neg hd, hm]

theorem c5_unique_match_resolution_witness :
    full_hash_from_prefix (List.replicate 40 'a') [] = .ok (List.replicate 40 'a') ∧
    full_hash_from_prefix ['a', 'a', 'a', 'a'] [(List.replicate 40 'a', [1])] =
      .ok ((['a', 'a', 'a', 'a'] : Hash).take 2 ++ List.replicate 38 'a') :=
  ⟨(c5_unique_match_resolution (List.replicate 40 'a') []).1 (by decide),
   (c5_unique_match_resolution ['a', 'a', 'a', 'a'] [(List.replicate 40 'a', [1])]).2
     (List.replicate 38 'a') (by decide) (by decide) (by decide)⟩

/-- Claim C6 counterexample: with an empty store the shard directory for
`abcd` is absent, and the resolver does not produce the object-not-found
fatal diagnostic the claim requires: `read_dir` is unwrapped and the
process panics (aborts without `fatal:`/exit 128). -/
theorem c6_absent_dir_counterexample :
    full_hash_from_prefix ['a', 'b', 'c', 'd'] [] = .error .unwrapPanic ∧
    full_hash_from_prefix ['a', 'b', 'c', 'd'] [] ≠
      .error (.objectNotFound ['a', 'b', 'c', 'd']) :=
  ⟨by decide, by decide⟩

/-- Claim C6 amended: for an argument of length 4 to 39 with zero
matching objects, the resolver fails with the object-not-found fatal
error when the shard directory exists (some stored hash shares the first
two characters), but panics on the unwrapped `read_dir` when the shard
directory is absent. -/
theorem c6_zero_match_resolution (p : Hash) (r : Repo) (h4 : 4 ≤ p.length)
    (h40 : p.length ≠ 40) (hm : matchingObjects r p = []) :
    (dirListing r (p.take 2) ≠ [] →
      full_hash_from_prefix p r = .error (.objectNotFound p)) ∧
    (dirListing r (p.take 2) = [] →
      full_hash_from_prefix p r = .error .unwrapPanic) := by
  constructor
  · intro hd
    unfold full_hash_from_prefix
    rw [if_neg h40, if_neg (by omega), if_neg hd, hm]
  · intro hd
    unfold full_hash_from_prefix
    rw [if_neg h40, if_neg (by omega), if_pos hd]

theorem c6_zero_match_resolution_witness :
    full_hash_from_prefix ['a', 'a', 'z', 'z'] [(List.replicate 40 'a', [1])] =
      .error (.objectNotFound ['a', 'a', 'z', 'z']) ∧
    full_hash_from_prefix ['a', 'b', 'c', 'd'] [] = .error .unwrapPanic :=
  ⟨(c6_zero_match_resolution ['a', 'a', 'z', 'z'] [(List.replicate 40 'a', [1])]
      (by decide) (by decide) (by decide)).1 (by decide),
   (c6_zero_match_resolution ['a', 'b', 'c', 'd'] [] (by decide) (by decide)
      (by decide)).2 (by decide)⟩

/-- Claim C7 counterexample: two stored 40-character hashes share the
6-character argument `ababab`; resolution fails as ambiguous, but the
candidate list carries the 38-character file names, and neither full
40-character hash appears in it. -/
theorem c7_candidates_counterexample :
    full_hash_from_prefix ['a', 'b', 'a', 'b', 'a', 'b']
        [(['a', 'b', 'a', 'b', 'a', 'b'] ++ List.replicate 34 '0', [1]),
         (['a', 'b', 'a', 'b', 'a', 'b'] ++ List.replicate 34 '1', [2])] =
      .error (.ambiguousHash
        [['a', 'b', 'a', 'b'] ++ List.replicate 34 '0',
         ['a', 'b', 'a', 'b'] ++ List.replicate 34 '1']) ∧
    (['a', 'b', 'a', 'b', 'a', 'b'] ++ List.replicate 34 '0') ∉
      [['a', 'b', 'a', 'b'] ++ List.replicate 34 '0',
       ['a', 'b', 'a', 'b'] ++ List.replicate 34 '1'] ∧
    (['a', 'b', 'a', 'b', 'a', 'b'] ++ List.replicate 34 '1') ∉
      [['a', 'b', 'a', 'b'] ++ List.replicate 34 '0',
       ['a', 'b', 'a', 'b'] ++ List.replicate 34 '1'] :=
  ⟨by decide, by decide, by decide⟩

/-- Claim C7 amended: an argument of length 4 to 39 with two or more
matching objects fails as ambiguous, and the candidate list in the
diagnostic is exactly the list of matching stored hashes each with its
2-character shard name removed (the 38-character file names), in store
order. -/
theorem c7_ambiguous_resolution (p : Hash) (r : Repo) (fs : List Hash)
    (h4 : 4 ≤ p.length) (h40 : p.length ≠ 40) (hm : matchingObjects r p = fs)
    (hlen : 2 ≤ fs.length) :
    full_hash_from_prefix p r = .error (.ambiguousHash fs) ∧
    fs = ((r.map Prod.fst).filter
      (fun k => (p.drop 2).isPrefixOf (k.drop 2) && decide (k.take 2 = p.take 2))).map
      (fun k => k.drop 2) := by
  constructor
  · have hne : matchingObjects r p ≠ [] := by
      rw [hm]
      intro hnil
      rw [hnil] at hlen
      simp at hlen
    have hd : dirListing r (p.take 2) ≠ [] := dirListing_ne_nil_of_matching r p hne
    unfold full_hash_from_prefix
    rw [if_neg h40, if_neg (by omega), if_neg hd, hm]
    match fs, hlen with
    | x :: y :: t, _ => rfl
  · rw [← hm, matchingObjects_eq]

theorem c7_ambiguous_resolution_witness :
    full_hash_from_prefix ['a', 'a', 'a', 'a']
        [(List.replicate 40 'a', [1]), (['a', 'a', 'a', 'a'] ++ List.replicate 36 'b', [2])] =
      .error (.ambiguousHash
        [List.replicate 38 'a', ['a', 'a'] ++ List.replicate 36 'b']) :=
  (c7_ambiguous_resolution ['a', 'a', 'a', 'a']
    [(List.replicate 40 'a', [1]), (['a', 'a', 'a', 'a'] ++ List.replicate 36 'b', [2])]
    [List.replicate 38 'a', ['a', 'a'] ++ List.replicate 36 'b']
    (by decide) (by decide) (by decide) (by decide)).1

/-- Claim C8: an argument shorter than 4 characters (hence not exactly
40) is rejected as too short with no directory scan — the resolver
result is the same for every store — and cat-blob rejects it before any
filesystem access at all: even with no repository discoverable
(`orepo = none`) the rejection is the length error, not the
repository-discovery error. -/
theorem c8_short_arg_rejected (p : Hash) (r : Repo) (orepo : Option Repo)
    (hshort : p.length < 4) :
    full_hash_from_prefix p r = .error .hashTooShort ∧
    cat_blob_from_blobular_repo orepo p = .error .hashTooShort := by
  have h40 : ¬ p.length = 40 := by omega
  constructor
  · unfold full_hash_from_prefix
    rw [if_neg h40, if_pos hshort]
  · unfold cat_blob_from_blobular_repo
    rw [if_pos hshort]

theorem c8_short_arg_rejected_witness :
    full_hash_from_prefix ['a', 'b', 'c'] [] = .error .hashTooShort ∧
    cat_blob_from_blobular_repo none ['a', 'b', 'c'] = .error .hashTooShort :=
  c8_short_arg_rejected ['a', 'b', 'c'] [] none (by decide)

/-- Claim C2 counterexample: the empty buffer is shorter than 2048
bytes yet yields zero chunks, not exactly one chunk spanning the
buffer. -/
theorem c2_empty_buffer_counterexample :
    chunk_file (fun _ _ => false) ([] : List Byte) = [] ∧
    (chunk_file (fun _ _ => false) ([] : List Byte)).length ≠ 1 :=
  ⟨rfl, by decide⟩

/-- Claim C2 amended: for every boundary rule and every buffer, the
chunks partition the buffer exactly — in increasing order, adjacent from
offset 0 with no gap or overlap, and concatenating the chunk byte
ranges in order reproduces the buffer — and every chunk except possibly
the last has length in [2048, 65535]; a NON-EMPTY buffer of at most
2048 bytes is exactly one chunk spanning the whole buffer, and the
empty buffer yields no chunks. -/
theorem c2_chunk_coverage (isB : Nat → Nat → Bool) (B : List Byte) :
    adjacentFrom 0 (chunk_file isB B) = true ∧
    ((chunk_file isB B).map (chunkBytes B)).flatten = B ∧
    (∀ c ∈ (chunk_file isB B).dropLast, 2048 ≤ c.length ∧ c.length ≤ 65535) ∧
    (B ≠ [] → B.length ≤ 2048 → chunk_file isB B = [⟨0, B.length⟩]) ∧
    chunk_file isB ([] : List Byte) = [] := by
  refine ⟨?_, ?_, ?_, chunk_file_small isB B, rfl⟩
  · exact chunkLoop_adjacent isB (B.length / minSize + 1) 0 B.length
  · have := chunkLoop_join isB B (B.length / minSize + 1) 0 B.length
      (chunk_file_fuel B.length) (Nat.zero_add B.length)
    simpa [chunk_file] using this
  · exact chunkLoop_bounds isB (B.length / minSize + 1) 0 B.length

theorem c2_chunk_coverage_witness :
    chunk_file (fun _ _ => false) [5, 6, 7] = [⟨0, 3⟩] ∧
    ((chunk_file (fun _ _ => false) [5, 6, 7]).map (chunkBytes [5, 6, 7])).flatten =
      [5, 6, 7] :=
  ⟨(c2_chunk_coverage (fun _ _ => false) [5, 6, 7]).2.2.2.1 (by decide) (by decide),
   (c2_chunk_coverage (fun _ _ => false) [5, 6, 7]).2.1⟩

/-- Claim C10 counterexample: decoding the empty payload does not
succeed with an empty chunk list. -/
theorem c10_empty_decode_counterexample :
    decode_manifest [] ≠ .ok [] := by decide

/-- Claim C10 amended: decoding an empty payload FAILS with the
malformed-manifest fatal error on an empty line — Rust splits the empty
string into one empty piece, which lacks the `"blob "` marker — and
cat-file on a stored empty payload fails the same way. -/
theorem c10_empty_decode :
    decode_manifest [] = .error (.malformedManifest []) ∧
    cat_file_from_blobular_repo (some [(List.replicate 40 'e', [])])
        (List.replicate 40 'e') = .error (.malformedManifest []) :=
  ⟨by decide, by decide⟩

/-- Claim C4: storing a blob whose hash is already present performs no
write and no error — the store is returned unchanged and the existing
payload under that hash is untouched — and re-running `add` on the same
file content over the store the first run produced returns the same
hash and leaves the store identical (no object count or payload
changes). -/
theorem c4_dedup_idempotent :
    (∀ (r : Repo) (b p : List Byte) (h : Hash), lookupBlob r h = some p →
      store_blob r b h = r ∧ lookupBlob (store_blob r b h) h = some p) ∧
    (∀ (d : List Byte → Hash) (isB : Nat → Nat → Bool) (B : List Byte) (r : Repo)
      (pr : Hash × Repo), add_file_to_blobular_repo d isB B r = some pr →
        add_file_to_blobular_repo d isB B pr.2 = some pr) := by
  constructor
  · intro r b p h hl
    have hnoop : store_blob r b h = r := store_blob_of_found r b h (by rw [hl]; rfl)
    exact ⟨hnoop, by rw [hnoop, hl]⟩
  · intro d isB B r pr hadd
    unfold add_file_to_blobular_repo at hadd ⊢
    by_cases hlen : B.length = 0
    · rw [if_pos hlen] at hadd
      exact absurd hadd (by simp)
    · rw [if_neg hlen] at hadd ⊢
      have hpr : pr = (d B, addRepo d isB B r) := (Option.some.inj hadd).symm
      subst hpr
      have hXchunks : ∀ c ∈ chunk_file isB B,
          (lookupBlob (addRepo d isB B r) (chunkHash d B c)).isSome := by
        intro c hc
        exact lookupBlob_store_mono _ _ _ _
          (chunkStores_mem d B (chunk_file isB B) r c hc)
      have hXblob : (lookupBlob (addRepo d isB B r) (d B)).isSome :=
        lookupBlob_store_self _ _ _
      have h1 : chunkStores d isB B (addRepo d isB B r) = addRepo d isB B r :=
        chunkStores_noop d B (chunk_file isB B) (addRepo d isB B r) hXchunks
      have h2 : addRepo d isB B (addRepo d isB B r) = addRepo d isB B r := by
        have hdef : addRepo d isB B (addRepo d isB B r) =
            store_blob (chunkStores d isB B (addRepo d isB B r))
              (manifestEncode (chunkHashes d isB B)) (d B) := rfl
        rw [hdef, h1]
        exact store_blob_of_found _ _ _ hXblob
      rw [h2]

theorem c4_dedup_idempotent_witness :
    store_blob [(toHex40 1, [120])] [99] (toHex40 1) = [(toHex40 1, [120])] ∧
    add_file_to_blobular_repo dLen (fun _ _ => false) [120]
        (addRepo dLen (fun _ _ => false) [120] []) =
      some (dLen [120], addRepo dLen (fun _ _ => false) [120] []) :=
  ⟨(c4_dedup_idempotent.1 [(toHex40 1, [120])] [99] [120] (toHex40 1) (by decide)).1,
   c4_dedup_idempotent.2 dLen (fun _ _ => false) [120] []
     (dLen [120], addRepo dLen (fun _ _ => false) [120] []) (by decide)⟩

/-- Claim C3: `add` stores the parent blob under the digest of the whole
raw file and returns exactly that digest — for EVERY starting store, so
two runs on the same content return the identical hash.  After `add`,
the object under the whole-file digest is the encoded manifest whenever
that key was still free after the chunk stores (otherwise the dedup
short-circuit keeps the earlier payload), and the digest of the
manifest's own bytes, when it differs from the whole-file digest and was
not otherwise stored, indexes nothing — the manifest is not stored under
its own digest. -/
theorem c3_manifest_identity (d : List Byte → Hash) (isB : Nat → Nat → Bool)
    (B : List Byte) (repo : Repo) (hB : B ≠ []) :
    add_file_to_blobular_repo d isB B repo = some (d B, addRepo d isB B repo) ∧
    lookupBlob (addRepo d isB B repo) (d B) =
      some ((lookupBlob (chunkStores d isB B repo) (d B)).getD
        (manifestEncode (chunkHashes d isB B))) ∧
    (d (manifestEncode (chunkHashes d isB B)) ≠ d B →
      lookupBlob (chunkStores d isB B repo) (d (manifestEncode (chunkHashes d isB B))) = none →
      lookupBlob (addRepo d isB B repo) (d (manifestEncode (chunkHashes d isB B))) = none) := by
  have hlen : ¬ B.length = 0 := by
    intro hz
    exact hB (List.eq_nil_of_length_eq_zero hz)
  refine ⟨?_, ?_, ?_⟩
  · unfold add_file_to_blobular_repo
    rw [if_neg hlen]
  · unfold addRepo
    cases hS : lookupBlob (chunkStores d isB B repo) (d B) with
    | none =>
      rw [store_blob_of_fresh _ _ _ hS]
      simp [lookupBlob]
    | some v =>
      rw [store_blob_of_found _ _ _ (by rw [hS]; rfl), hS]
      rfl
  · intro hne hfresh
    unfold addRepo
    rw [lookupBlob_store_other _ _ _ _ hne]
    exact hfresh

theorem c3_manifest_identity_witness :
    add_file_to_blobular_repo dLen (fun _ _ => false) [120] [] =
      some (dLen [120], addRepo dLen (fun _ _ => false) [120] []) ∧
    lookupBlob (addRepo dLen (fun _ _ => false) [120] [])
        (dLen (manifestEncode (chunkHashes dLen (fun _ _ => false) [120]))) = none :=
  ⟨(c3_manifest_identity dLen (fun _ _ => false) [120] [] (by decide)).1,
   (c3_manifest_identity dLen (fun _ _ => false) [120] [] (by decide)).2.2
     (by decide) (by decide)⟩

/-- Claim C9 counterexample: an object whose payload is the single byte
0xFF is not a well-formed manifest, yet cat-file on it does not fail
with the malformed-manifest fatal diagnostic: the unwrap on
String::from_utf8 panics first. -/
theorem c9_nonutf8_counterexample :
    cat_file_from_blobular_repo (some [(List.replicate 40 'f', [255])])
        (List.replicate 40 'f') = .error .unwrapPanic ∧
    isMalformedResult (cat_file_from_blobular_repo
      (some [(List.replicate 40 'f', [255])]) (List.replicate 40 'f')) = false :=
  ⟨by decide, by decide⟩

/-- Claim C9 amended: when cat-file retrieves a payload that decodes as
UTF-8 text, every line must carry the `"blob "` marker and the
malformed-manifest fatal error is raised carrying the FIRST trimmed
line that does not; a payload that is not valid UTF-8 instead aborts
with a panic on the unwrapped String::from_utf8, not with a fatal
diagnostic. -/
theorem c9_manifest_validation (r : Repo) (h : Hash) (payload : List Byte)
    (h40 : h.length = 40) (hlk : lookupBlob r h = some payload) :
    (utf8Decode payload = none →
      cat_file_from_blobular_repo (some r) h = .error .unwrapPanic) ∧
    (∀ (cs l : List Char), utf8Decode payload = some cs →
      ((splitNl (trimWs cs)).map trimWs).find? (fun x => ! blobMark.isPrefixOf x) = some l →
      cat_file_from_blobular_repo (some r) h = .error (.malformedManifest l)) := by
  have hres : full_hash_from_prefix h r = .ok h := by
    unfold full_hash_from_prefix
    rw [if_pos h40]
  constructor
  · intro hdec
    simp only [cat_file_from_blobular_repo, hres, hlk, hdec]
  · intro cs l hdec hbad
    have hman : decode_manifest cs = .error (.malformedManifest l) :=
      decodeLines_error (splitNl (trimWs cs)) l hbad
    simp only [cat_file_from_blobular_repo, hres, hlk, hdec, hman]

theorem c9_manifest_validation_witness :
    cat_file_from_blobular_repo (some [(List.replicate 40 '9', [104])])
        (List.replicate 40 '9') = .error (.malformedManifest ['h']) ∧
    cat_file_from_blobular_repo (some [(List.replicate 40 '8', [255])])
        (List.replicate 40 '8') = .error .unwrapPanic :=
  ⟨(c9_manifest_validation [(List.replicate 40 '9', [104])] (List.replicate 40 '9')
      [104] (by decide) (by decide)).2 ['h'] ['h'] (by decide) (by decide),
   (c9_manifest_validation [(List.replicate 40 '8', [255])] (List.replicate 40 '8')
      [255] (by decide) (by decide)).1 (by decide)⟩

/-- Claim C1 (round-trip), shown failing on the code: for a single-chunk
file — here the 1-byte file `x`, but any file of at most 2048 bytes
behaves the same — the only chunk is the whole file, so the chunk hash
equals the whole-file hash; the chunk store writes the raw file bytes
under that hash, and the later parent-blob store under the same hash is
the dedup no-op.  `add` therefore returns a hash under which the RAW
FILE, not a manifest, is stored, and cat-file on the returned hash fails
with the malformed-manifest fatal error instead of reproducing the
file.  The statement holds for every digest function producing
40-character hashes and every chunk-boundary rule. -/
theorem c1_roundtrip_single_chunk_bug (d : List Byte → Hash) (isB : Nat → Nat → Bool)
    (hlen : (d [120]).length = 40) :
    add_file_to_blobular_repo d isB [120] [] = some (d [120], [(d [120], [120])]) ∧
    cat_file_from_blobular_repo (some [(d [120], [120])]) (d [120]) =
      .error (.malformedManifest ['x']) := by
  have hchunks : chunk_file isB [120] = [⟨0, 1⟩] :=
    chunk_file_small isB [120] (by decide) (by decide)
  have hbytes : chunkBytes [120] ⟨0, 1⟩ = [120] := rfl
  have hstores : chunkStores d isB [120] [] = [(d [120], [120])] := by
    unfold chunkStores chunkHash
    rw [hchunks]
    simp only [List.foldl_cons, List.foldl_nil, hbytes]
    exact store_blob_of_fresh [] [120] (d [120]) rfl
  have hrepo : addRepo d isB [120] [] = [(d [120], [120])] := by
    unfold addRepo
    rw [hstores]
    exact store_blob_of_found _ _ _ (by simp [lookupBlob])
  constructor
  · unfold add_file_to_blobular_repo
    rw [if_neg (by decide), hrepo]
  · have hres : full_hash_from_prefix (d [120]) [(d [120], [120])] = .ok (d [120]) := by
      unfold full_hash_from_prefix
      rw [if_pos hlen]
    have hlk : lookupBlob [(d [120], [120])] (d [120]) = some [120] := by
      simp [lookupBlob]
    have hdec : utf8Decode [120] = some ['x'] := by decide
    have hman : decode_manifest ['x'] = .error (.malformedManifest ['x']) := by decide
    simp only [cat_file_from_blobular_repo, hres, hlk, hdec, hman]

theorem c1_roundtrip_single_chunk_bug_witness :
    (dLen [120]).length = 40 ∧
    add_file_to_blobular_repo dLen (fun _ _ => false) [120] [] =
      some (dLen [120], [(dLen [120], [120])]) ∧
    cat_file_from_blobular_repo (some [(dLen [120], [120])]) (dLen [120]) =
      .error (.malformedManifest ['x']) :=
  ⟨by decide,
   (c1_roundtrip_single_chunk_bug dLen (fun _ _ => false) (by decide)).1,
   (c1_roundtrip_single_chunk_bug dLen (fun _ _ => false) (by decide)).2⟩

end Blobular
